import Mathlib

/-!
Shallow embedding of the extraction-and-normalization pipeline of the
Recipe-Extractor-and-Organizer repository (files backend/utils.py,
backend/extraction.py, backend/routes/recipes.py).

Python strings are modelled as lists of characters (Str).  Library calls
made by the source (html.unescape, unicodedata.normalize, the regular
expressions of the re module) are modelled by executable Lean functions
that follow the library's documented algorithm on the character
repertoire exercised by this development; each such model carries a doc
comment stating the restriction.
-/

namespace Recipe

/-- Python str values are modelled as lists of characters. -/
abbrev Str := List Char

/-- Convert a Lean string literal into the model representation. -/
def str (s : String) : Str := s.data

/-- Model of the whitespace class used by Python's regex \s and str.strip
for the whitespace characters occurring in this development (ASCII
whitespace plus NBSP, which html.unescape can introduce). -/
def isSpace (c : Char) : Bool :=
  c == ' ' || c == '\t' || c == '\n' || c == '\r' || c == '\x0b' ||
  c == '\x0c' || c == '\xa0'

/-- Python str.lstrip for whitespace. -/
def dropLead (l : Str) : Str := l.dropWhile isSpace

/-- Python str.rstrip for whitespace. -/
def dropTrail (l : Str) : Str := (l.reverse.dropWhile isSpace).reverse

/-- Python str.strip(): drop leading and trailing whitespace. -/
def pyStrip (l : Str) : Str := dropTrail (dropLead l)

/-- Python str.lower restricted to the ASCII letters (the only cased
characters in this development). -/
def pyLower (l : Str) : Str := l.map Char.toLower

/-- Python str.upper restricted to the ASCII letters. -/
def pyUpper (l : Str) : Str := l.map Char.toUpper

/-- Named character references handled by the model of html.unescape:
the references exercised by this development, each in the html5 table
both with and without the trailing semicolon, as in Python's table. -/
def entityTable : List (Str × Str) :=
  [ (str "amp;", str "&"), (str "amp", str "&"),
    (str "lt;", str "<"), (str "lt", str "<"),
    (str "gt;", str ">"), (str "gt", str ">"),
    (str "quot;", str "\""), (str "quot", str "\""),
    (str "nbsp;", str "\xa0"), (str "nbsp", str "\xa0"),
    (str "eacute;", str "é"), (str "eacute", str "é") ]

/-- Table lookup for a character-reference name. -/
def entLookup (s : Str) : Option Str :=
  (entityTable.find? (fun p => p.1 == s)).map Prod.snd

/-- Characters admitted in a named reference by the regex of
html.unescape (the class excluding whitespace, space, <, &, # and ;). -/
def entNameChar (c : Char) : Bool :=
  !(c == '\t' || c == '\n' || c == '\x0c' || c == ' ' || c == '<' ||
    c == '&' || c == '#' || c == ';')

/-- Longest-prefix fallback of html._replace_charref: prefixes of s of
length x, x+1 being the argument, descending, stopping above length 1. -/
def entFallback (s : Str) : Nat → Option Str
  | 0 => none
  | x + 1 =>
    if x + 1 < 2 then none
    else
      match entLookup (s.take (x + 1)) with
      | some r => some (r ++ s.drop (x + 1))
      | none => entFallback s x

/-- Model of matching one character reference after an ampersand, as in
html.unescape: take up to 32 name characters, an optional semicolon,
look the name up, falling back to its longest known prefix.  Returns
the replacement text and the number of characters consumed, or none
when no known reference matches (html.unescape then leaves the text
unchanged, which the caller reproduces by copying the ampersand; the
name characters contain no ampersand, so rescanning them is
equivalent). -/
def matchCharref (rest : Str) : Option (Str × Nat) :=
  let name := (rest.takeWhile entNameChar).take 32
  if name = [] then none
  else
    let semi := (rest.drop name.length).head? == some ';'
    let s := if semi then name ++ [';'] else name
    let consumed := name.length + (if semi then 1 else 0)
    match entLookup s with
    | some r => some (r, consumed)
    | none =>
      match entFallback s (s.length - 1) with
      | some r => some (r, consumed)
      | none => none

/-- Scanner of html.unescape, structured on a fuel argument that the
wrapper instantiates with the length of the input (each step consumes
at least one character, so the fuel never runs out). -/
def unescapeFuel : Nat → Str → Str
  | 0, l => l
  | _ + 1, [] => []
  | fuel + 1, c :: rest =>
    if c = '&' then
      match matchCharref rest with
      | some (r, n) => r ++ unescapeFuel fuel (rest.drop n)
      | none => c :: unescapeFuel fuel rest
    else c :: unescapeFuel fuel rest

/-- Model of html.unescape on the entity repertoire of entityTable. -/
def htmlUnescape (l : Str) : Str := unescapeFuel l.length l

/-- Decompositions of the Unicode vulgar-fraction glyphs under NFKC:
digit, fraction slash (U+2044), digit. -/
def vulgarTable : List (Char × Str) :=
  [ ('¼', str "1⁄4"), ('½', str "1⁄2"), ('¾', str "3⁄4"),
    ('⅓', str "1⁄3"), ('⅔', str "2⁄3"), ('⅛', str "1⁄8"),
    ('⅜', str "3⁄8"), ('⅝', str "5⁄8"), ('⅞', str "7⁄8") ]

/-- Model of unicodedata.normalize("NFKC", c) for one character, on the
repertoire of this development: the Unicode vulgar-fraction glyphs
decompose per vulgarTable; every other character occurring here is
NFKC-fixed. -/
def nfkcChar (c : Char) : Str :=
  match vulgarTable.find? (fun p => p.1 == c) with
  | some p => p.2
  | none => [c]

/-- Model of unicodedata.normalize("NFKC", s), character by character. -/
def nfkc (l : Str) : Str := (l.map nfkcChar).flatten

/-- One pass of re.sub(r"\s+", " ", s): prev records whether the
previous character was whitespace, so each whitespace run is replaced
by a single space. -/
def squeezeAux : Bool → Str → Str
  | _, [] => []
  | prev, c :: rest =>
    if isSpace c then
      if prev then squeezeAux true rest else ' ' :: squeezeAux true rest
    else c :: squeezeAux false rest

/-- Model of re.sub(r"\s+", " ", s). -/
def squeeze (l : Str) : Str := squeezeAux false l

/-- The whitespace-collapsing tail of clean_text:
re.sub(r"\s+", " ", s).strip(). -/
def collapse (l : Str) : Str := pyStrip (squeeze l)

/-- utils.clean_text: empty guard, html.unescape, NFKC normalization,
whitespace collapse, strip. -/
def clean_text (s : Str) : Str :=
  if s = [] then []
  else collapse (nfkc (htmlUnescape s))

/-! ### Facts about stripping, collapsing and NFKC needed for the
idempotence analysis of clean_text. -/

theorem dropWhile_idem (p : Char → Bool) (l : Str) :
    (l.dropWhile p).dropWhile p = l.dropWhile p := by
  induction l with
  | nil => rfl
  | cons a t ih =>
    by_cases h : p a
    · simp [List.dropWhile_cons, h, ih]
    · simp [List.dropWhile_cons, h]

theorem dropWhile_head_not (p : Char → Bool) :
    ∀ (l : Str) (c : Char) (t : Str), l.dropWhile p = c :: t → p c = false := by
  intro l
  induction l with
  | nil => intro c t h; simp at h
  | cons a s ih =>
    intro c t h
    by_cases ha : p a
    · rw [List.dropWhile_cons_of_pos ha] at h
      exact ih c t h
    · rw [List.dropWhile_cons_of_neg ha] at h
      injection h with h1 _
      subst h1
      simpa using ha

theorem pyStrip_isPrefix (l : Str) : pyStrip l <+: dropLead l := by
  have h : (dropLead l).reverse.dropWhile isSpace <:+ (dropLead l).reverse :=
    List.dropWhile_suffix isSpace
  have h2 := List.reverse_prefix.mpr h
  simpa [pyStrip, dropTrail] using h2

theorem pyStrip_head_not_space (l : Str) :
    ∀ (c : Char) (t : Str), pyStrip l = c :: t → isSpace c = false := by
  intro c t h
  obtain ⟨r, hr⟩ := pyStrip_isPrefix l
  rw [h] at hr
  exact dropWhile_head_not isSpace l c (t ++ r) (by simpa using hr.symm)

theorem pyStrip_reverse_eq (l : Str) :
    (pyStrip l).reverse = (dropLead l).reverse.dropWhile isSpace := by
  simp [pyStrip, dropTrail]

theorem dropLead_pyStrip (l : Str) : dropLead (pyStrip l) = pyStrip l := by
  cases h : pyStrip l with
  | nil => rfl
  | cons c t =>
    have hc := pyStrip_head_not_space l c t h
    simp [dropLead, List.dropWhile_cons, hc]

theorem dropTrail_pyStrip (l : Str) : dropTrail (pyStrip l) = pyStrip l := by
  have : (pyStrip l).reverse.dropWhile isSpace = (pyStrip l).reverse := by
    rw [pyStrip_reverse_eq, dropWhile_idem, ← pyStrip_reverse_eq]
  rw [dropTrail, this, List.reverse_reverse]

theorem pyStrip_idem (l : Str) : pyStrip (pyStrip l) = pyStrip l := by
  show dropTrail (dropLead (pyStrip l)) = pyStrip l
  rw [dropLead_pyStrip, dropTrail_pyStrip]

theorem mem_pyStrip (l : Str) {c : Char} (h : c ∈ pyStrip l) : c ∈ l := by
  have h1 : c ∈ dropLead l := (pyStrip_isPrefix l).sublist.subset h
  exact (List.dropWhile_sublist isSpace).subset h1

theorem pyStrip_exists_nonspace (l : Str) (h : pyStrip l ≠ []) :
    ∃ c ∈ pyStrip l, isSpace c = false := by
  cases hp : pyStrip l with
  | nil => exact absurd hp h
  | cons c t => exact ⟨c, by simp, pyStrip_head_not_space l c t hp⟩

/-- The shape of a whitespace-collapsed string: no two adjacent
whitespace characters. -/
def noTwoSpace (c d : Char) : Prop := isSpace c = false ∨ isSpace d = false

theorem squeezeAux_space_mem :
    ∀ (l : Str) (prev : Bool) (c : Char),
      c ∈ squeezeAux prev l → isSpace c = true → c = ' ' := by
  intro l
  induction l with
  | nil => intro prev c h; simp [squeezeAux] at h
  | cons a s ih =>
    intro prev c h hc
    by_cases ha : isSpace a
    · cases prev with
      | true =>
        simp only [squeezeAux, if_pos ha, if_pos rfl] at h
        exact ih true c h hc
      | false =>
        simp [squeezeAux, ha] at h
        rcases h with h | h
        · exact h
        · exact ih true c h hc
    · simp [squeezeAux, ha] at h
      rcases h with rfl | h
      · exact absurd hc ha
      · exact ih false c h hc

theorem mem_squeezeAux :
    ∀ (l : Str) (prev : Bool) (c : Char),
      c ∈ squeezeAux prev l → c = ' ' ∨ c ∈ l := by
  intro l
  induction l with
  | nil => intro prev c h; simp [squeezeAux] at h
  | cons a s ih =>
    intro prev c h
    by_cases ha : isSpace a
    · cases prev with
      | true =>
        simp only [squeezeAux, if_pos ha, if_pos rfl] at h
        rcases ih true c h with h1 | h1
        · exact Or.inl h1
        · exact Or.inr (List.mem_cons_of_mem a h1)
      | false =>
        simp [squeezeAux, ha] at h
        rcases h with h | h
        · exact Or.inl h
        · rcases ih true c h with h1 | h1
          · exact Or.inl h1
          · exact Or.inr (List.mem_cons_of_mem a h1)
    · simp [squeezeAux, ha] at h
      rcases h with rfl | h
      · exact Or.inr (by simp)
      · rcases ih false c h with h1 | h1
        · exact Or.inl h1
        · exact Or.inr (List.mem_cons_of_mem a h1)

theorem squeezeAux_chain :
    ∀ (l : Str) (prev : Bool),
      List.Chain' noTwoSpace (squeezeAux prev l) ∧
      (∀ c t, prev = true → squeezeAux prev l = c :: t → isSpace c = false) := by
  intro l
  induction l with
  | nil =>
    intro prev
    refine ⟨by simp [squeezeAux], ?_⟩
    intro c t _ h
    simp [squeezeAux] at h
  | cons a s ih =>
    intro prev
    by_cases ha : isSpace a
    · cases prev with
      | true =>
        have h := ih true
        simpa [squeezeAux, ha] using h
      | false =>
        simp only [squeezeAux, if_pos ha, Bool.false_eq_true, if_neg (by simp : ¬False)]
        constructor
        · rw [List.chain'_cons']
          refine ⟨?_, (ih true).1⟩
          intro y hy
          cases hs : squeezeAux true s with
          | nil => rw [hs] at hy; simp at hy
          | cons c t =>
            rw [hs] at hy
            simp at hy
            subst hy
            exact Or.inr ((ih true).2 c t rfl hs)
        · intro c t h
          cases h
    · simp only [squeezeAux, if_neg ha]
      constructor
      · rw [List.chain'_cons']
        refine ⟨?_, (ih false).1⟩
        intro y _
        exact Or.inl (by simpa using ha)
      · intro c t _ h
        injection h with h1 _
        subst h1
        simpa using ha

theorem squeezeAux_id :
    ∀ (l : Str),
      (∀ c ∈ l, isSpace c = true → c = ' ') →
      List.Chain' noTwoSpace l →
      ∀ prev : Bool,
        (∀ c t, prev = true → l = c :: t → isSpace c = false) →
        squeezeAux prev l = l := by
  intro l
  induction l with
  | nil => intro _ _ prev _; cases prev <;> rfl
  | cons a s ih =>
    intro hmem hch prev hhead
    by_cases ha : isSpace a
    · have ha' : a = ' ' := hmem a (List.mem_cons_self a s) ha
      cases prev with
      | true =>
        have := hhead a s rfl rfl
        rw [ha] at this
        cases this
      | false =>
        simp only [squeezeAux, if_pos ha, Bool.false_eq_true, if_neg (by simp : ¬False)]
        rw [← ha']
        congr 1
        apply ih
        · intro c hc h; exact hmem c (List.mem_cons_of_mem a hc) h
        · exact hch.tail
        · intro c t _ hst
          have h1 := (List.chain'_cons'.mp hch).1
          rw [hst] at h1
          have h2 := h1 c (by simp)
          rcases h2 with h2 | h2
          · rw [ha] at h2; cases h2
          · exact h2
    · simp only [squeezeAux, if_neg ha]
      congr 1
      apply ih
      · intro c hc h; exact hmem c (List.mem_cons_of_mem a hc) h
      · exact hch.tail
      · intro c t hpf; cases hpf

theorem pyStrip_isInfix (l : Str) : pyStrip l <:+: l := by
  obtain ⟨t, ht⟩ := pyStrip_isPrefix l
  have hsuf : l.dropWhile isSpace <:+ l := List.dropWhile_suffix isSpace
  obtain ⟨s, hs⟩ := hsuf
  have ht' : pyStrip l ++ t = l.dropWhile isSpace := ht
  exact ⟨s, t, by rw [List.append_assoc, ht']; exact hs⟩

theorem squeeze_collapse (l : Str) : squeeze (collapse l) = collapse l := by
  apply squeezeAux_id
  · intro c hc h
    have h1 : c ∈ squeeze l := mem_pyStrip (squeeze l) hc
    exact squeezeAux_space_mem l false c h1 h
  · exact List.Chain'.infix ((squeezeAux_chain l false).1)
      (pyStrip_isInfix (squeeze l))
  · intro c t hpf; cases hpf

theorem collapse_idem (l : Str) : collapse (collapse l) = collapse l := by
  show pyStrip (squeeze (collapse l)) = collapse l
  rw [squeeze_collapse]
  exact pyStrip_idem (squeeze l)

theorem nfkcChar_fixed_of_mem (x c : Char) (h : c ∈ nfkcChar x) :
    nfkcChar c = [c] := by
  rw [nfkcChar] at h
  cases hfind : vulgarTable.find? (fun p => p.1 == x) with
  | none =>
    rw [hfind] at h
    simp at h
    subst h
    rw [nfkcChar, hfind]
  | some p =>
    rw [hfind] at h
    have hp := List.mem_of_find?_eq_some hfind
    simp [vulgarTable] at hp
    rcases hp with rfl | rfl | rfl | rfl | rfl | rfl | rfl | rfl | rfl <;>
      simp [str] at h <;>
      rcases h with rfl | rfl | rfl <;> decide

theorem nfkc_fixed (l : Str) (h : ∀ c ∈ l, nfkcChar c = [c]) : nfkc l = l := by
  induction l with
  | nil => rfl
  | cons a t ih =>
    have : nfkc (a :: t) = nfkcChar a ++ nfkc t := by simp [nfkc]
    rw [this, h a (List.mem_cons_self a t),
      ih (fun c hc => h c (List.mem_cons_of_mem a hc))]
    rfl

theorem mem_nfkc (l : Str) (c : Char) (h : c ∈ nfkc l) :
    ∃ x ∈ l, c ∈ nfkcChar x := by
  simp [nfkc, List.mem_flatten] at h
  rcases h with ⟨x, hx, hc⟩
  exact ⟨x, hx, hc⟩

/-- C3 (amended): clean_text is idempotent on every string whose cleaned
form decodes no further HTML character reference: whenever html-unescaping
clean_text(s) leaves it unchanged, clean_text(clean_text(s)) equals
clean_text(s).  The unrestricted claim fails because html.unescape can
decode a reference that a first decoding pass produced; see the
counterexample. -/
theorem C3_clean_text_idem (s : Str)
    (h : htmlUnescape (clean_text s) = clean_text s) :
    clean_text (clean_text s) = clean_text s := by
  by_cases h0 : clean_text s = []
  · rw [h0]; rfl
  · have hs : s ≠ [] := by
      intro hs
      rw [clean_text, if_pos hs] at h0
      exact h0 rfl
    have hfix : nfkc (clean_text s) = clean_text s := by
      apply nfkc_fixed
      intro c hc
      rw [clean_text, if_neg hs] at hc
      unfold collapse at hc
      have h1 := mem_pyStrip _ hc
      rcases mem_squeezeAux _ false c h1 with hsp | hm
      · subst hsp; decide
      · rcases mem_nfkc _ c hm with ⟨x, _, hcx⟩
        exact nfkcChar_fixed_of_mem x c hcx
    conv_lhs => rw [clean_text, if_neg h0]
    rw [h, hfix]
    conv_rhs => rw [clean_text, if_neg hs]
    conv_lhs => rw [clean_text, if_neg hs]
    exact collapse_idem _

/-- C3 counterexample: clean_text is not idempotent as claimed.  On the
double-escaped input "&amp;lt;" the first pass yields "&lt;" and the
second pass decodes that again, yielding "<". -/
theorem C3_counterexample :
    clean_text (clean_text (str "&amp;lt;")) ≠ clean_text (str "&amp;lt;") := by
  decide

/-- C3 witness: the amended theorem applies to the concrete input
"a  b", whose cleaned form "a b" decodes no character reference. -/
theorem C3_witness :
    clean_text (clean_text (str "a  b")) = clean_text (str "a  b") :=
  C3_clean_text_idem (str "a  b") (by decide)

/-! ### Duration parser (utils.time_to_minutes) -/

/-- Value of a string of decimal digits. -/
def digitsToNat (l : Str) : Nat :=
  l.foldl (fun acc c => acc * 10 + (c.toNat - '0'.toNat)) 0

/-- One optional component (\d+)X of the ISO pattern: a digit run
directly followed by the marker consumes both and yields its value;
otherwise nothing is consumed and the value defaults to 0, as in
int(m.group(i) or 0). -/
def isoComponent (mark : Char) (l : Str) : Nat × Str :=
  let ds := l.takeWhile Char.isDigit
  if ds ≠ [] ∧ (l.drop ds.length).head? = some mark then
    (digitsToNat ds, l.drop (ds.length + 1))
  else (0, l)

/-- Model of re.match of "^P(?:T(?:(\d+)H)?(?:(\d+)M)?)" against the
uppercased text: P, a mandatory T, an optional digit run followed by H,
an optional digit run followed by M (each greedy; since the digit runs
are maximal, regex backtracking never picks a shorter run). -/
def isoMatch (l : Str) : Option (Nat × Nat) :=
  match l with
  | 'P' :: 'T' :: rest =>
    let hr := isoComponent 'H' rest
    let mr := isoComponent 'M' hr.2
    some (hr.1, mr.1)
  | _ => none

/-- The unit alternatives (hour|hr|h|minute|min|m) in the order Python
tries them. -/
def unitAlts : List Str :=
  [str "hour", str "hr", str "h", str "minute", str "min", str "m"]

/-- Match of the tail \s*(hour|hr|h|minute|min|m)s? of the findall
pattern: maximal whitespace, the first matching unit alternative, an
optional plural s.  Returns group 2 (the unit without the s) and the
rest after the match. -/
def matchUnit (l : Str) : Option (Str × Str) :=
  let l1 := l.dropWhile isSpace
  match unitAlts.find? (fun u => u.isPrefixOf l1) with
  | some u =>
    match l1.drop u.length with
    | 's' :: r2 => some (u, r2)
    | r => some (u, r)
  | none => none

/-- Match of the optional fraction part \s*\d+/\d+ of the first findall
alternative; returns the matched text and the rest. -/
def matchFrac (l : Str) : Option (Str × Str) :=
  let sp := l.takeWhile isSpace
  let l1 := l.drop sp.length
  let n := l1.takeWhile Char.isDigit
  if n = [] then none
  else
    match l1.drop n.length with
    | '/' :: l2 =>
      let m := l2.takeWhile Char.isDigit
      if m = [] then none
      else some (sp ++ n ++ '/' :: m, l2.drop m.length)
    | _ => none

/-- The first findall alternative \d+(?:\s*\d+/\d+)? followed by the
unit tail, with the leading digit run of l cut after k characters; the
regex tries the longest cut first (greedy \d+), preferring the fraction
present over absent, and shortens the cut on failure. -/
def tryAlt1 (l ds : Str) : Nat → Option (Str × Str × Str)
  | 0 => none
  | k + 1 =>
    let p := ds.take (k + 1)
    let r := l.drop (k + 1)
    let withoutFrac : Option (Str × Str × Str) :=
      match matchUnit r with
      | some (u, r2) => some (p, u, r2)
      | none => tryAlt1 l ds k
    match matchFrac r with
    | some (ft, r2) =>
      match matchUnit r2 with
      | some (u, r3) => some (p ++ ft, u, r3)
      | none => withoutFrac
    | none => withoutFrac

/-- The second findall alternative \d+\.\d+ followed by the unit tail. -/
def tryAlt2 (l : Str) : Option (Str × Str × Str) :=
  let ds := l.takeWhile Char.isDigit
  if ds = [] then none
  else
    match l.drop ds.length with
    | '.' :: l2 =>
      let m := l2.takeWhile Char.isDigit
      if m = [] then none
      else
        match matchUnit (l2.drop m.length) with
        | some (u, r) => some (ds ++ '.' :: m, u, r)
        | none => none
    | _ => none

/-- One attempted match of the findall pattern anchored at the current
position: the first alternative (with its backtracking) and then the
second. -/
def matchAt (l : Str) : Option (Str × Str × Str) :=
  let ds := l.takeWhile Char.isDigit
  match tryAlt1 l ds ds.length with
  | some r => some r
  | none => tryAlt2 l

/-- re.findall scanning: attempt a match at every position, resuming
after each match (every match consumes at least one character, so fuel
equal to the input length suffices). -/
def findallFuel : Nat → Str → List (Str × Str)
  | 0, _ => []
  | _ + 1, [] => []
  | fuel + 1, l =>
    match matchAt l with
    | some (a, u, r) => (a, u) :: findallFuel fuel r
    | none => findallFuel fuel l.tail

/-- Python int(s) for the strings produced here: whitespace may surround
a pure digit run; anything else raises. -/
def pyInt (s : Str) : Except Unit Nat :=
  let t := pyStrip s
  if t ≠ [] ∧ t.all Char.isDigit then Except.ok (digitsToNat t)
  else Except.error ()

/-- Python str.split() with no separator: split on whitespace runs,
dropping empty tokens. -/
def pySplitWs (l : Str) : List Str :=
  (l.splitOnP (fun c => isSpace c)).filter (fun t => t ≠ [])

/-- Parse a matched amount into an exact nonnegative fraction
(numerator, denominator), following the three branches of the source:
mixed number, slash fraction, float literal.  Python's unguarded
exceptions (malformed int, zero denominator) become errors.  Floats are
modelled as exact rationals, which agrees with Python on the small
decimals this code compares to integers. -/
def parseAmount (amount0 : Str) : Except Unit (Nat × Nat) :=
  let amount := pyStrip amount0
  if (' ' ∈ amount) ∧ ('/' ∈ amount) then
    match pySplitWs amount with
    | [whole, frac] =>
      match frac.splitOn '/' with
      | [n, d] => do
        let w ← pyInt whole
        let nv ← pyInt n
        let dv ← pyInt d
        if dv = 0 then Except.error ()
        else Except.ok (w * dv + nv, dv)
      | _ => Except.error ()
    | _ => Except.error ()
  else if '/' ∈ amount then
    match amount.splitOn '/' with
    | [n, d] => do
      let nv ← pyInt n
      let dv ← pyInt d
      if dv = 0 then Except.error ()
      else Except.ok (nv, dv)
    | _ => Except.error ()
  else
    match amount.splitOn '.' with
    | [a] => (pyInt a).map (fun v => (v, 1))
    | [a, b] =>
      if b ≠ [] ∧ b.all Char.isDigit then
        (pyInt a).map (fun v => (v * 10 ^ b.length + digitsToNat b, 10 ^ b.length))
      else Except.error ()
    | _ => Except.error ()

/-- Python substring containment, pat in s. -/
def strContains (pat : Str) : Str → Bool
  | [] => pat.isPrefixOf ([] : Str)
  | l@(_ :: t) => pat.isPrefixOf l || strContains pat t

/-- The contribution of one findall match: hour-family units scale by
60 ("hour" in unit, or unit h or hr); int() truncation of these
nonnegative fractions is Nat division. -/
def matchMinutes (amount unitTok : Str) : Except Unit Nat := do
  let nd ← parseAmount amount
  if strContains (str "hour") unitTok || unitTok == str "h" || unitTok == str "hr" then
    Except.ok (nd.1 * 60 / nd.2)
  else
    Except.ok (nd.1 / nd.2)

/-- Sum of the contributions, raising the first error as the Python
loop would. -/
def sumMatches : List (Str × Str) → Except Unit Nat
  | [] => Except.ok 0
  | (a, u) :: rest => do
    let v ← matchMinutes a u
    let r ← sumMatches rest
    Except.ok (v + r)

/-- utils.time_to_minutes: empty input gives 0; an ISO duration prefix
(uppercased) short-circuits; otherwise the findall matches over the
lowercased text are summed.  Except models the exceptions the source
leaves unguarded. -/
def time_to_minutes (text : Str) : Except Unit Nat :=
  if text = [] then Except.ok 0
  else
    let t := pyStrip text
    match isoMatch (pyUpper t) with
    | some hm => Except.ok (hm.1 * 60 + hm.2)
    | none => sumMatches (findallFuel (pyLower t).length (pyLower t))

/-- C4: evaluation of the duration parser at the five spec vectors.
Four hold, but the pure-fraction vector fails: time_to_minutes of
"3/4 hour" is 240, not 45.  The findall amount pattern has no
standalone \d+/\d+ alternative (unlike the quantity pattern of
parse_ingredient_line), so the only match in "3/4 hour" is "4 hour",
even though the amount-parsing loop has a dedicated pure-fraction
branch that expects such matches. -/
theorem C4_time_to_minutes_vectors :
    time_to_minutes (str "PT1H30M") = Except.ok 90 ∧
    time_to_minutes (str "1 1/2 hours") = Except.ok 90 ∧
    time_to_minutes (str "45 min") = Except.ok 45 ∧
    time_to_minutes (str "") = Except.ok 0 ∧
    time_to_minutes (str "3/4 hour") = Except.ok 240 := by
  refine ⟨?_, ?_, ?_, ?_, ?_⟩ <;> rfl

/-! ### Ingredient line parser (utils.parse_ingredient_line) -/

/-- models.IngredientItem. -/
structure IngredientItem where
  name : Str
  quantity : Str
  unit : Str
deriving DecidableEq

/-- Whether l matches the end-anchored pattern \s*\(.*?\)\s*$ from its
first character: optional whitespace, an opening parenthesis, anything,
then a closing parenthesis followed only by whitespace to the end
(cleaned text contains no newline, so the dot class is unrestricted
here). -/
def parenSuffix (l : Str) : Bool :=
  match l.dropWhile isSpace with
  | '(' :: v => (dropTrail v).getLast? == some ')'
  | _ => false

/-- Leftmost position at which the trailing-parenthetical pattern
matches, as re.sub selects it. -/
def parenIdx : Str → Option Nat
  | [] => none
  | l@(_ :: t) => if parenSuffix l then some 0 else (parenIdx t).map (· + 1)

/-- re.sub(r"\s*\(.*?\)\s*$", "", line): remove the tail from the
leftmost match position. -/
def stripTrailingParen (l : Str) : Str :=
  match parenIdx l with
  | some i => l.take i
  | none => l

/-- The Unicode vulgar-fraction glyphs of the quantity pattern. -/
def vulgarGlyphs : Str := str "¼½¾⅓⅔⅛⅜⅝⅞"

/-- Model of the quantity regex
^([0-9]+(?:\s+[0-9]+/[0-9]+)?|[0-9]+/[0-9]+|[0-9]*\.[0-9]+|[glyphs])\s*(.*)$
with Python's ordered-alternative semantics: a leading digit run always
selects the first alternative (making the standalone-fraction
alternative unreachable, and restricting the third to a leading decimal
point); the fourth alternative is a single vulgar-fraction glyph.
Returns group 1 and group 2 (the rest after maximal whitespace). -/
def qtyMatch (l : Str) : Option (Str × Str) :=
  let ds := l.takeWhile Char.isDigit
  if ds ≠ [] then
    let r := l.drop ds.length
    let sp := r.takeWhile isSpace
    let r1 := r.drop sp.length
    let n := r1.takeWhile Char.isDigit
    let m := (r1.drop (n.length + 1)).takeWhile Char.isDigit
    let qty :=
      if sp ≠ [] ∧ n ≠ [] ∧ (r1.drop n.length).head? = some '/' ∧ m ≠ [] then
        ds ++ sp ++ n ++ '/' :: m
      else ds
    some (qty, (l.drop qty.length).dropWhile isSpace)
  else
    match l with
    | [] => none
    | c :: r =>
      if c = '.' then
        let m := r.takeWhile Char.isDigit
        if m ≠ [] then some ('.' :: m, (r.drop m.length).dropWhile isSpace)
        else none
      else if c ∈ vulgarGlyphs then some ([c], r.dropWhile isSpace)
      else none

/-- Python rest.split(None, 1) for an already-stripped rest: the first
whitespace-free token and the remainder after the separating run. -/
def splitWs1 (rest : Str) : List Str :=
  if rest = [] then []
  else
    let w := rest.takeWhile (fun c => !(isSpace c))
    let t := (rest.drop w.length).dropWhile isSpace
    if t = [] then [w] else [w, t]

/-- The unit-token test ^[A-Za-z]{1,6}\.?$: one to six ASCII letters
and an optional final period. -/
def isUnitToken (p : Str) : Bool :=
  let q := if p.getLast? == some '.' then p.dropLast else p
  q ≠ [] && q.length ≤ 6 && q.all (fun c => c.isAlpha)

/-- utils.parse_ingredient_line: clean the text, strip one trailing
parenthetical, match a leading quantity; a short alphabetic next token
becomes the unit, the remainder the name; all fields stripped. -/
def parse_ingredient_line (line0 : Str) : IngredientItem :=
  let line1 := clean_text line0
  let line := stripTrailingParen line1
  match qtyMatch line with
  | some (qty, rest0) =>
    let rest := pyStrip rest0
    match splitWs1 rest with
    | [p1, p2] =>
      if isUnitToken p1 then ⟨pyStrip p2, pyStrip qty, pyStrip p1⟩
      else ⟨pyStrip rest, pyStrip qty, []⟩
    | [p1] =>
      if isUnitToken p1 then ⟨[], pyStrip qty, pyStrip p1⟩
      else ⟨pyStrip rest, pyStrip qty, []⟩
    | _ => ⟨pyStrip rest, pyStrip qty, []⟩
  | none => ⟨pyStrip line, [], []⟩

/-- C6: parse_ingredient_line on "¾ cup sugar (packed)".  clean_text
applies NFKC first, which decomposes the glyph ¾ into "3⁄4" (digit,
fraction slash, digit) before the quantity regex runs, so the regex's
vulgar-fraction alternative can never fire; the leading digit "3"
becomes the quantity, the token "⁄4" fails the unit test, and the name
keeps the fraction debris.  The claimed output (quantity "¾", unit
"cup", name "sugar") is not produced. -/
theorem C6_vulgar_fraction_glyph :
    parse_ingredient_line (str "¾ cup sugar (packed)") =
      ⟨str "⁄4 cup sugar", str "3", str ""⟩ := by
  rfl

/-! ### Section organizers (utils.clean_ingredients, utils.clean_steps) -/

/-- models.IngredientsSection; the Python field section is named
sectionName here because section is a Lean keyword. -/
structure IngredientsSection where
  sectionName : Str
  items : List Str
deriving DecidableEq

/-- models.StepsSection; the Python field section is named sectionName
here because section is a Lean keyword. -/
structure StepsSection where
  sectionName : Str
  items : List Str
deriving DecidableEq

/-- Python line.endswith(":"). -/
def endsWithColon (l : Str) : Bool := l.getLast? == some ':'

/-- The loop of clean_ingredients over the remaining raw lines, carrying
the flushed sections and the accumulating section. -/
def cleanIngLoop : List Str → List IngredientsSection → IngredientsSection →
    List IngredientsSection
  | [], sections, current =>
    if current.items ≠ [] then sections ++ [current] else sections
  | raw :: rest, sections, current =>
    let line := pyStrip raw
    if line = [] then cleanIngLoop rest sections current
    else if endsWithColon line then
      cleanIngLoop rest
        (if current.items ≠ [] then sections ++ [current] else sections)
        ⟨line.dropLast, []⟩
    else cleanIngLoop rest sections ⟨current.sectionName, current.items ++ [line]⟩

/-- utils.clean_ingredients. -/
def clean_ingredients (raw : List Str) : List IngredientsSection :=
  cleanIngLoop raw [] ⟨str "Main", []⟩

/-- The generic labels filtered by clean_steps. -/
def genericLabels : List Str :=
  [str "step", str "steps", str "instruction", str "instructions",
   str "method", str "methods", str "directions"]

/-- re.sub(r"^[\-•\*]\s*", "", t): strip one leading bullet marker. -/
def stripBullet (t : Str) : Str :=
  match t with
  | c :: r => if c = '-' ∨ c = '•' ∨ c = '*' then r.dropWhile isSpace else t
  | [] => t

/-- re.sub(r"^\d+\s*[\.\)]\s*", "", t): strip one leading numeric
marker (each run maximal; the classes are disjoint, so regex
backtracking never picks a shorter run). -/
def stripNumericMarker (t : Str) : Str :=
  let ds := t.takeWhile Char.isDigit
  if ds = [] then t
  else
    match (t.drop ds.length).dropWhile isSpace with
    | '.' :: r2 => r2.dropWhile isSpace
    | ')' :: r2 => r2.dropWhile isSpace
    | _ => t

/-- re.sub of the case-insensitive prefix pattern
^(?:step\s*\d*\s*[:\-\.)]?\s*): the word step, optional whitespace,
optional digits, optional whitespace, one optional separator, optional
whitespace. -/
def stripStepPrefixMarker (t : Str) : Str :=
  if pyLower (t.take 4) = str "step" then
    let r1 := ((t.drop 4).dropWhile isSpace).dropWhile Char.isDigit
    let r2 := r1.dropWhile isSpace
    match r2 with
    | c :: rr =>
      if c = ':' ∨ c = '-' ∨ c = '.' ∨ c = ')' then rr.dropWhile isSpace else r2
    | [] => r2
  else t

/-- clean_steps.normalize_step_text: strip, one bullet marker, one
numeric marker, one step prefix, strip. -/
def normalize_step_text (t0 : Str) : Str :=
  pyStrip (stripStepPrefixMarker (stripNumericMarker (stripBullet (pyStrip t0))))

/-- The bare-step-header test re.match(r"^step\s*\d*\s*$", header,
IGNORECASE). -/
def isBareStepHeader (h : Str) : Bool :=
  pyLower (h.take 4) == str "step" &&
  ((((h.drop 4).dropWhile isSpace).dropWhile Char.isDigit).dropWhile isSpace).isEmpty

/-- The loop of clean_steps over the remaining raw lines. -/
def cleanStepsLoop : List Str → List StepsSection → StepsSection →
    List StepsSection
  | [], sections, current =>
    if current.items ≠ [] then sections ++ [current] else sections
  | raw :: rest, sections, current =>
    let line := pyStrip raw
    if line = [] then cleanStepsLoop rest sections current
    else
      let header := pyStrip line.dropLast
      if endsWithColon line ∧ header ≠ [] ∧ pyLower header ∉ genericLabels ∧
          isBareStepHeader header = false then
        cleanStepsLoop rest
          (if current.items ≠ [] then sections ++ [current] else sections)
          ⟨header, []⟩
      else
        let norm := normalize_step_text line
        if norm = [] then cleanStepsLoop rest sections current
        else if pyLower norm ∈ genericLabels then cleanStepsLoop rest sections current
        else if current.items.getLast? = some norm then
          cleanStepsLoop rest sections current
        else cleanStepsLoop rest sections ⟨current.sectionName, current.items ++ [norm]⟩

/-- utils.clean_steps, including the fallback: when the main pass kept
nothing but the raw input was non-empty, return one Steps section with
the stripped, generic-label-filtered raw lines, if any survive. -/
def clean_steps (raw_steps : List Str) : List StepsSection :=
  let sections : List StepsSection := cleanStepsLoop raw_steps [] ⟨str "Steps", []⟩
  let total : Nat := (sections.map (fun s => s.items.length)).sum
  if total = 0 ∧ raw_steps ≠ [] then
    let fallback := (raw_steps.map pyStrip).filter
      (fun s => decide (s ≠ [] ∧ pyLower s ∉ genericLabels))
    if fallback ≠ [] then [⟨str "Steps", fallback⟩] else sections
  else sections

/-- C5 counterexample: contrary to the claim, clean_steps on
["Steps", "Instructions"] does not return zero sections. -/
theorem C5_counterexample :
    clean_steps [str "Steps", str "Instructions"] ≠ [] := by
  decide

/-- C5 (amended): on the input ["Steps", "Instructions"] the step
organizer returns one section, named "Steps", with the single item "s":
"Instructions" is dropped as a generic label, but the prefix stripper
removes the "Step" prefix of "Steps" first, leaving "s", which is not a
generic label and is kept; the fallback is not triggered. -/
theorem C5_all_generic_input :
    clean_steps [str "Steps", str "Instructions"] =
      [⟨str "Steps", [str "s"]⟩] := by
  decide

/-! ### Invariants of the section organizers (C9, C10) -/

/-- The colon headers of the raw input, stripped, in order. -/
def headerNames (raw : List Str) : List Str :=
  raw.filterMap (fun l =>
    if pyStrip l ≠ [] ∧ endsWithColon (pyStrip l) then
      some (pyStrip l).dropLast
    else none)

theorem cleanIngLoop_nonempty :
    ∀ (raw : List Str) (sections : List IngredientsSection)
      (current : IngredientsSection),
      (∀ s ∈ sections, s.items ≠ []) →
      ∀ s ∈ cleanIngLoop raw sections current, s.items ≠ [] := by
  intro raw
  induction raw with
  | nil =>
    intro sections current h s hs
    simp only [cleanIngLoop] at hs
    by_cases hc : current.items ≠ []
    · rw [if_pos hc] at hs
      rcases List.mem_append.mp hs with h1 | h1
      · exact h s h1
      · simp at h1; subst h1; exact hc
    · rw [if_neg hc] at hs
      exact h s hs
  | cons a rest ih =>
    intro sections current h s hs
    simp only [cleanIngLoop] at hs
    by_cases h1 : pyStrip a = []
    · rw [if_pos h1] at hs
      exact ih sections current h s hs
    · rw [if_neg h1] at hs
      by_cases h2 : endsWithColon (pyStrip a) = true
      · rw [if_pos h2] at hs
        refine ih _ _ ?_ s hs
        intro s2 hs2
        by_cases h3 : current.items ≠ []
        · rw [if_pos h3] at hs2
          rcases List.mem_append.mp hs2 with h4 | h4
          · exact h s2 h4
          · simp at h4; subst h4; exact h3
        · rw [if_neg h3] at hs2
          exact h s2 hs2
      · rw [if_neg h2] at hs
        refine ih _ _ ?_ s hs
        intro s2 hs2
        exact h s2 hs2

theorem cleanIngLoop_skip_blank :
    ∀ (raw : List Str) (sections : List IngredientsSection)
      (current : IngredientsSection),
      cleanIngLoop (raw.filter (fun l => !(pyStrip l).isEmpty)) sections current =
        cleanIngLoop raw sections current := by
  intro raw
  induction raw with
  | nil => intro sections current; rfl
  | cons a rest ih =>
    intro sections current
    by_cases h1 : pyStrip a = []
    · have hf : (a :: rest).filter (fun l => !(pyStrip l).isEmpty) =
          rest.filter (fun l => !(pyStrip l).isEmpty) := by
        simp [List.filter_cons, h1]
      rw [hf, ih]
      conv_rhs => rw [cleanIngLoop]
      rw [if_pos h1]
    · have hf : (a :: rest).filter (fun l => !(pyStrip l).isEmpty) =
          a :: rest.filter (fun l => !(pyStrip l).isEmpty) := by
        simp [List.filter_cons, List.isEmpty_iff, h1]
      rw [hf]
      simp only [cleanIngLoop]
      rw [if_neg h1, if_neg h1]
      by_cases h2 : endsWithColon (pyStrip a) = true
      · rw [if_pos h2, if_pos h2, ih]
      · rw [if_neg h2, if_neg h2, ih]

theorem cleanIngLoop_names_sublist :
    ∀ (raw : List Str) (sections : List IngredientsSection)
      (current : IngredientsSection),
      List.Sublist
        ((cleanIngLoop raw sections current).map (fun s => s.sectionName))
        (sections.map (fun s => s.sectionName) ++
          current.sectionName :: headerNames raw) := by
  intro raw
  induction raw with
  | nil =>
    intro sections current
    simp only [cleanIngLoop, headerNames, List.filterMap_nil]
    by_cases hc : current.items ≠ []
    · rw [if_pos hc]
      simp
    · rw [if_neg hc]
      exact List.sublist_append_left _ _
  | cons a rest ih =>
    intro sections current
    simp only [cleanIngLoop]
    by_cases h1 : pyStrip a = []
    · have hh : headerNames (a :: rest) = headerNames rest := by
        simp [headerNames, List.filterMap_cons, h1]
      rw [if_pos h1, hh]
      exact ih sections current
    · rw [if_neg h1]
      by_cases h2 : endsWithColon (pyStrip a) = true
      · have hh : headerNames (a :: rest) =
            (pyStrip a).dropLast :: headerNames rest := by
          simp [headerNames, List.filterMap_cons, h1, h2]
        rw [if_pos h2, hh]
        by_cases h4 : current.items ≠ []
        · rw [if_pos h4]
          have h3 := ih (sections ++ [current]) ⟨(pyStrip a).dropLast, []⟩
          have heq : (sections ++ [current]).map (fun s => s.sectionName) ++
              ((⟨(pyStrip a).dropLast, []⟩ : IngredientsSection).sectionName ::
                headerNames rest) =
              sections.map (fun s => s.sectionName) ++
                current.sectionName :: (pyStrip a).dropLast :: headerNames rest := by
            simp
          rw [← heq]
          exact h3
        · rw [if_neg h4]
          have h3 := ih sections ⟨(pyStrip a).dropLast, []⟩
          refine h3.trans ?_
          refine List.Sublist.append_left ?_ _
          exact List.sublist_cons_self _ _
      · have hh : headerNames (a :: rest) = headerNames rest := by
          simp [headerNames, List.filterMap_cons, h2]
        rw [if_neg h2, hh]
        exact ih sections ⟨current.sectionName, current.items ++ [pyStrip a]⟩

theorem cleanIngLoop_no_colon :
    ∀ (raw : List Str) (current : IngredientsSection),
      (∀ l ∈ raw, endsWithColon (pyStrip l) = false) →
      cleanIngLoop raw [] current =
        (if current.items ++ ((raw.map pyStrip).filter (fun l => !l.isEmpty)) ≠ []
         then [⟨current.sectionName,
               current.items ++ ((raw.map pyStrip).filter (fun l => !l.isEmpty))⟩]
         else []) := by
  intro raw
  induction raw with
  | nil =>
    intro current _
    simp only [cleanIngLoop, List.map_nil, List.filter_nil, List.append_nil]
    by_cases hc : current.items ≠ []
    · rw [if_pos hc, if_pos hc]
      simp
    · rw [if_neg hc, if_neg hc]
  | cons a rest ih =>
    intro current hcol
    have ha := hcol a (by simp)
    simp only [cleanIngLoop, List.map_cons, List.filter_cons]
    by_cases h1 : pyStrip a = []
    · have hf : (pyStrip a).isEmpty = true := by simp [h1]
      rw [if_pos h1]
      simp only [hf, Bool.not_true]
      exact ih current (fun l hl => hcol l (List.mem_cons_of_mem a hl))
    · have hf : (pyStrip a).isEmpty = false := by
        simpa [List.isEmpty_iff] using h1
      rw [if_neg h1, if_neg (by simp [ha])]
      simp only [hf, Bool.not_false]
      rw [ih ⟨current.sectionName, current.items ++ [pyStrip a]⟩
        (fun l hl => hcol l (List.mem_cons_of_mem a hl))]
      simp [List.append_assoc]

/-- C9: invariants of the ingredient section organizer: every returned
section has at least one item; whitespace-only lines contribute nothing
(removing them does not change the result); the section names appear in
first-appearance order of their headers (a sublist of "Main" followed
by the colon headers in input order); and an input with no
colon-terminated line yields at most one section, named "Main",
containing all non-blank stripped lines. -/
theorem C9_clean_ingredients_invariants (raw : List Str) :
    (∀ s ∈ clean_ingredients raw, s.items ≠ []) ∧
    clean_ingredients (raw.filter (fun l => !(pyStrip l).isEmpty)) =
      clean_ingredients raw ∧
    List.Sublist ((clean_ingredients raw).map (fun s => s.sectionName))
      (str "Main" :: headerNames raw) ∧
    ((∀ l ∈ raw, endsWithColon (pyStrip l) = false) →
      clean_ingredients raw =
        (if ((raw.map pyStrip).filter (fun l => !l.isEmpty)) ≠ []
         then [⟨str "Main", (raw.map pyStrip).filter (fun l => !l.isEmpty)⟩]
         else [])) := by
  refine ⟨?_, ?_, ?_, ?_⟩
  · intro s hs
    exact cleanIngLoop_nonempty raw [] ⟨str "Main", []⟩ (by simp) s hs
  · exact cleanIngLoop_skip_blank raw [] ⟨str "Main", []⟩
  · simpa using cleanIngLoop_names_sublist raw [] ⟨str "Main", []⟩
  · intro h
    simpa using cleanIngLoop_no_colon raw ⟨str "Main", []⟩ h

/-- C9 witness: the invariants at the concrete no-colon input
["a", "", "b"], whose result is one "Main" section with both non-blank
lines. -/
theorem C9_witness :
    clean_ingredients [str "a", str "", str "b"] =
      [⟨str "Main", [str "a", str "b"]⟩] := by
  have h := (C9_clean_ingredients_invariants [str "a", str "", str "b"]).2.2.2
    (by decide)
  exact h.trans (by rfl)

/-- The invariant of a stored step item: non-empty, not
whitespace-only, and its lowercase form is not a generic label. -/
def stepItemOk (it : Str) : Prop :=
  it ≠ [] ∧ (∃ c ∈ it, isSpace c = false) ∧ pyLower it ∉ genericLabels

theorem normalize_step_text_ok (line : Str)
    (h : normalize_step_text line ≠ [])
    (h2 : pyLower (normalize_step_text line) ∉ genericLabels) :
    stepItemOk (normalize_step_text line) :=
  ⟨h, pyStrip_exists_nonspace _ h, h2⟩

theorem cleanStepsLoop_inv :
    ∀ (raw : List Str) (sections : List StepsSection) (current : StepsSection),
      (∀ s ∈ sections, s.items ≠ [] ∧ ∀ it ∈ s.items, stepItemOk it) →
      (∀ it ∈ current.items, stepItemOk it) →
      ∀ s ∈ cleanStepsLoop raw sections current,
        s.items ≠ [] ∧ ∀ it ∈ s.items, stepItemOk it := by
  intro raw
  induction raw with
  | nil =>
    intro sections current hsec hcur s hs
    simp only [cleanStepsLoop] at hs
    by_cases hc : current.items ≠ []
    · rw [if_pos hc] at hs
      rcases List.mem_append.mp hs with h1 | h1
      · exact hsec s h1
      · simp at h1; subst h1; exact ⟨hc, hcur⟩
    · rw [if_neg hc] at hs
      exact hsec s hs
  | cons a rest ih =>
    intro sections current hsec hcur s hs
    simp only [cleanStepsLoop] at hs
    by_cases h1 : pyStrip a = []
    · rw [if_pos h1] at hs
      exact ih _ _ hsec hcur s hs
    · rw [if_neg h1] at hs
      by_cases h2 : endsWithColon (pyStrip a) = true ∧
          pyStrip (pyStrip a).dropLast ≠ [] ∧
          pyLower (pyStrip (pyStrip a).dropLast) ∉ genericLabels ∧
          isBareStepHeader (pyStrip (pyStrip a).dropLast) = false
      · rw [if_pos h2] at hs
        refine ih _ _ ?_ ?_ s hs
        · intro s2 hs2
          by_cases h3 : current.items ≠ []
          · rw [if_pos h3] at hs2
            rcases List.mem_append.mp hs2 with h4 | h4
            · exact hsec s2 h4
            · simp at h4; subst h4; exact ⟨h3, hcur⟩
          · rw [if_neg h3] at hs2
            exact hsec s2 hs2
        · intro it hit
          simp at hit
      · rw [if_neg h2] at hs
        by_cases h5 : normalize_step_text (pyStrip a) = []
        · rw [if_pos h5] at hs
          exact ih _ _ hsec hcur s hs
        · rw [if_neg h5] at hs
          by_cases h6 : pyLower (normalize_step_text (pyStrip a)) ∈ genericLabels
          · rw [if_pos h6] at hs
            exact ih _ _ hsec hcur s hs
          · rw [if_neg h6] at hs
            by_cases h7 : current.items.getLast? =
                some (normalize_step_text (pyStrip a))
            · rw [if_pos h7] at hs
              exact ih _ _ hsec hcur s hs
            · rw [if_neg h7] at hs
              refine ih _ _ hsec ?_ s hs
              intro it hit
              rcases List.mem_append.mp hit with h8 | h8
              · exact hcur it h8
              · simp at h8
                subst h8
                exact normalize_step_text_ok (pyStrip a) h5 h6

/-- C10: every item stored by the step section organizer, on the main
path and on the fallback path alike, is non-empty, not whitespace-only,
and its lowercase form is not a generic label; and every returned
section has at least one item. -/
theorem C10_clean_steps_items (raw : List Str) :
    ∀ s ∈ clean_steps raw,
      s.items ≠ [] ∧
      ∀ it ∈ s.items,
        it ≠ [] ∧ (∃ c ∈ it, isSpace c = false) ∧
          pyLower it ∉ genericLabels := by
  have hmain := cleanStepsLoop_inv raw [] ⟨str "Steps", []⟩ (by simp) (by simp)
  intro s hs
  simp only [clean_steps] at hs
  by_cases h1 : ((cleanStepsLoop raw [] ⟨str "Steps", []⟩).map
      (fun s => s.items.length)).sum = 0 ∧ raw ≠ []
  · rw [if_pos h1] at hs
    by_cases h2 : ((raw.map pyStrip).filter
        (fun s => decide (s ≠ [] ∧ pyLower s ∉ genericLabels))) ≠ []
    · rw [if_pos h2] at hs
      rw [List.mem_singleton] at hs
      subst hs
      refine ⟨h2, ?_⟩
      intro it hit
      rcases List.mem_filter.mp hit with ⟨hmem, hcond⟩
      have hc := of_decide_eq_true hcond
      simp only [List.mem_map] at hmem
      rcases hmem with ⟨x, _, rfl⟩
      exact ⟨hc.1, pyStrip_exists_nonspace x hc.1, hc.2⟩
    · rw [if_neg h2] at hs
      exact hmain s hs
  · rw [if_neg h1] at hs
    exact hmain s hs

/-- C10 witness: the invariant theorem applied at the concrete input
["1. Mix"], whose single returned section is ⟨"Steps", ["Mix"]⟩. -/
theorem C10_witness :
    (⟨str "Steps", [str "Mix"]⟩ : StepsSection).items ≠ [] :=
  (C10_clean_steps_items [str "1. Mix"]
    ⟨str "Steps", [str "Mix"]⟩ (by decide)).1

/-! ### Records, validity check and the extract route
(backend/models.py, backend/routes/recipes.py) -/

/-- models.RecipeResponse; the time fields are integer minutes with
default 0 as in the data model. -/
structure RecipeResponse where
  title : Str
  author : Str
  source_url : Str
  prep_time : Nat
  cook_time : Nat
  total_time : Nat
  servings : Str
  ingredients : List Str
  steps : List Str
  image_url : Option Str
deriving DecidableEq

/-- recipes._is_valid_recipe: a non-blank stripped title, or both a
non-empty ingredients list and a non-empty steps list. -/
def is_valid_recipe (r : RecipeResponse) : Bool :=
  !(pyStrip r.title).isEmpty || (!r.ingredients.isEmpty && !r.steps.isEmpty)

/-- C1: the validity check returns true exactly when the record has a
non-blank (after stripping) title, or both a non-empty ingredients list
and a non-empty steps list; in particular every record with empty
title, empty ingredients and steps ["x"] is invalid. -/
theorem C1_is_valid_recipe (r : RecipeResponse) :
    (is_valid_recipe r = true ↔
      (pyStrip r.title ≠ [] ∨ (r.ingredients ≠ [] ∧ r.steps ≠ []))) ∧
    (r.title = [] → r.ingredients = [] → r.steps = [str "x"] →
      is_valid_recipe r = false) := by
  constructor
  · simp [is_valid_recipe, List.isEmpty_iff]
  · intro h1 h2 h3
    simp [is_valid_recipe, h1, h2, h3, pyStrip, dropLead, dropTrail]

/-- C1 witness: the validity characterization applied to the concrete
record with blank title, no ingredients and steps ["x"]. -/
theorem C1_witness :
    is_valid_recipe ⟨[], [], [], 0, 0, 0, [], [], [str "x"], none⟩ = false :=
  (C1_is_valid_recipe ⟨[], [], [], 0, 0, 0, [], [], [str "x"], none⟩).2
    rfl rfl rfl

/-- recipes.extract, modelled over the outcomes of its collaborators:
the model-extraction call (which can raise), the refinement call
(invoked on the model's record when that record is invalid, and which
can raise), the heuristic record, and the success of each save_recipe
call.  The result pairs the response record with the log of printed
failure messages; a failed save only prints. -/
def extract_route (ai : Except Unit RecipeResponse)
    (refineCall : RecipeResponse → Except Unit RecipeResponse)
    (heur : RecipeResponse) (saveOk : RecipeResponse → Bool) :
    RecipeResponse × List Str :=
  let heurReturn : List Str → RecipeResponse × List Str := fun log =>
    (heur, log ++ (if saveOk heur then [] else [str "DB save failed:"]))
  match ai with
  | Except.ok recipe =>
    if is_valid_recipe recipe then
      (recipe, if saveOk recipe then [] else [str "DB save failed:"])
    else
      match refineCall recipe with
      | Except.ok refined =>
        if is_valid_recipe refined then
          (refined,
            if saveOk refined then [] else [str "DB save failed (refined):"])
        else heurReturn []
      | Except.error _ => heurReturn [str "AI refine failed:"]
  | Except.error _ => heurReturn [str "AI extraction failed:"]

/-- C2: whenever the model call raises, or its record is invalid while
refinement raises or yields an invalid record, the extract route
returns the heuristic record unconditionally (no validity gate on it);
and the returned record never depends on which persistence writes
succeed. -/
theorem C2_extract_heuristic_fallback :
    (∀ (ai : Except Unit RecipeResponse)
      (refineCall : RecipeResponse → Except Unit RecipeResponse)
      (heur : RecipeResponse) (saveOk : RecipeResponse → Bool),
      (∀ r, ai = Except.ok r →
        is_valid_recipe r = false ∧
        ∀ r2, refineCall r = Except.ok r2 → is_valid_recipe r2 = false) →
      (extract_route ai refineCall heur saveOk).1 = heur) ∧
    (∀ (ai : Except Unit RecipeResponse)
      (refineCall : RecipeResponse → Except Unit RecipeResponse)
      (heur : RecipeResponse) (saveOk1 saveOk2 : RecipeResponse → Bool),
      (extract_route ai refineCall heur saveOk1).1 =
        (extract_route ai refineCall heur saveOk2).1) := by
  constructor
  · intro ai refineCall heur saveOk h
    cases ai with
    | error e => rfl
    | ok r =>
      obtain ⟨hv, hr⟩ := h r rfl
      simp only [extract_route, hv]
      cases hrf : refineCall r with
      | error e => simp
      | ok r2 =>
        have h2 := hr r2 hrf
        simp [h2]
  · intro ai refineCall heur saveOk1 saveOk2
    cases ai with
    | error e => rfl
    | ok r =>
      simp only [extract_route]
      by_cases hv : is_valid_recipe r = true
      · simp [hv]
      · simp only [hv]
        cases hrf : refineCall r with
        | error e => simp
        | ok r2 =>
          by_cases hv2 : is_valid_recipe r2 = true <;> simp [hv2]

/-- C2 witness: a concrete run in which the model record and the
refined record are both invalid and every save fails; the heuristic
record, itself invalid under the validity rule, is still returned. -/
theorem C2_witness :
    (extract_route (Except.ok ⟨[], [], [], 0, 0, 0, [], [], [], none⟩)
      (fun _ => Except.ok ⟨[], [], [], 0, 0, 0, [], [], [], none⟩)
      ⟨[], [], str "u", 0, 0, 0, [], [], [str "p"], none⟩
      (fun _ => false)).1 =
      ⟨[], [], str "u", 0, 0, 0, [], [], [str "p"], none⟩ :=
  C2_extract_heuristic_fallback.1 _ _ _ _ (by
    intro r hr
    injection hr with h
    subst h
    refine ⟨rfl, ?_⟩
    intro r2 h2
    injection h2 with h3
    subst h3
    rfl)

/-! ### Decoded model responses (backend/extraction.py) -/

/-- JSON values as decoded by json.loads. -/
inductive JVal where
  | jnull : JVal
  | jbool : Bool → JVal
  | jnum : Int → JVal
  | jstr : Str → JVal
  | jarr : List JVal → JVal

/-- A decoded JSON object: a Python dict keyed by strings (keys are
unique, lookups take the first match). -/
abbrev JDict := List (Str × JVal)

/-- Python dict.get(k): None when the key is absent. -/
def jget (d : JDict) (k : Str) : Option JVal :=
  (d.find? (fun p => p.1 == k)).map Prod.snd

/-- Python dict assignment d[k] = v, modelled so that jget sees the
new value for k and unchanged values for every other key. -/
def jset (d : JDict) (k : Str) (v : JVal) : JDict :=
  (k, v) :: d.filter (fun p => !(p.1 == k))

/-- Decimal digits of a natural number, with fuel (any fuel above the
digit count gives the full numeral). -/
def natDigitsAux : Nat → Nat → Str
  | 0, _ => []
  | fuel + 1, n =>
    if n = 0 then []
    else natDigitsAux fuel (n / 10) ++ [Char.ofNat (48 + n % 10)]

/-- Decimal numeral of a natural number. -/
def natToStr (n : Nat) : Str :=
  if n = 0 then str "0" else natDigitsAux (n + 1) n

/-- Decimal numeral of an integer. -/
def intToStr (n : Int) : Str :=
  if n < 0 then '-' :: natToStr n.natAbs else natToStr n.natAbs

/-- Python str() of a decoded JSON value, modelled exactly for the
scalar values (None, booleans, integers, strings); the rendering of a
nested container is abstracted to a fixed token, on which no settled
claim depends (every value the pipeline stringifies in the scenarios
settled here is scalar). -/
def pyStrJ : JVal → Str
  | JVal.jnull => str "None"
  | JVal.jbool true => str "True"
  | JVal.jbool false => str "False"
  | JVal.jnum n => intToStr n
  | JVal.jstr s => s
  | JVal.jarr _ => str "[...]"

/-- Python falsiness of a decoded JSON value. -/
def jFalsy : JVal → Bool
  | JVal.jnull => true
  | JVal.jbool b => !b
  | JVal.jnum n => n == 0
  | JVal.jstr s => s.isEmpty
  | JVal.jarr xs => xs.isEmpty

/-- utils.time_to_minutes applied to a raw decoded value, as in
_normalize_ai_recipe_dict: the falsy guard sees the object itself,
str() is applied before stripping. -/
def time_to_minutes_val (v : JVal) : Except Unit Nat :=
  if jFalsy v then Except.ok 0
  else time_to_minutes (pyStrJ v)

/-- The nine required keys of a recipe dict, in source order. -/
def recipeFields : List Str :=
  [str "title", str "author", str "source_url", str "prep_time",
   str "cook_time", str "total_time", str "servings",
   str "ingredients", str "steps"]

/-- Whether a decoded value is list-shaped (isinstance(x, list)). -/
def isJList : Option JVal → Bool
  | some (JVal.jarr _) => true
  | _ => false

/-- The coercion if not isinstance(data.get(k), list): data[k] = []. -/
def coerceList (d : JDict) (k : Str) : JDict :=
  if isJList (jget d k) then d else jset d k (JVal.jarr [])

/-- The defaulting loop of _normalize_ai_recipe_dict: every missing
key receives "" (or [] for ingredients and steps). -/
def defaultFields (data0 : JDict) : JDict :=
  recipeFields.foldl (fun d f =>
    if (jget d f).isSome then d
    else jset d f (if f = str "ingredients" ∨ f = str "steps"
                   then JVal.jarr [] else JVal.jstr [])) data0

/-- The tail of _normalize_ai_recipe_dict after the defaulting loop:
time conversion, servings stringification, source_url forcing, list
coercion. -/
def normalizeTail (data1 : JDict) (url : Str) : Except Unit JDict := do
  let pt ← time_to_minutes_val ((jget data1 (str "prep_time")).getD (JVal.jstr []))
  let ct ← time_to_minutes_val ((jget data1 (str "cook_time")).getD (JVal.jstr []))
  let tt ← time_to_minutes_val ((jget data1 (str "total_time")).getD (JVal.jstr []))
  let data2 := jset (jset (jset data1
    (str "prep_time") (JVal.jnum pt))
    (str "cook_time") (JVal.jnum ct))
    (str "total_time") (JVal.jnum tt)
  let data3 := jset data2 (str "servings")
    (JVal.jstr (pyStrJ ((jget data2 (str "servings")).getD (JVal.jstr []))))
  let data4 := jset data3 (str "source_url")
    (JVal.jstr (if url ≠ [] then url
                else pyStrJ ((jget data3 (str "source_url")).getD (JVal.jstr []))))
  let data5 := coerceList data4 (str "ingredients")
  let data6 := coerceList data5 (str "steps")
  Except.ok data6

/-- extraction._normalize_ai_recipe_dict, as the defaulting loop
followed by the conversion tail. -/
def normalize_ai_recipe_dict (data0 : JDict) (url : Str) :
    Except Unit JDict :=
  normalizeTail (defaultFields data0) url

theorem jget_jset_same (d : JDict) (k : Str) (v : JVal) :
    jget (jset d k v) k = some v := by
  simp [jget, jset, List.find?_cons]

theorem find?_filter_ne (rest : JDict) (k k2 : Str) (h : ¬ k2 = k) :
    (rest.filter (fun p => !(p.1 == k))).find? (fun p => p.1 == k2) =
      rest.find? (fun p => p.1 == k2) := by
  induction rest with
  | nil => rfl
  | cons p t ih =>
    by_cases hp : p.1 = k
    · have h2 : (p.1 == k2) = false := by
        simp [hp]
        intro hh
        exact h hh.symm
      have h3 : (k == k2) = false := by
        simp
        intro hh
        exact h hh.symm
      simp [List.filter_cons, hp, List.find?_cons, h2, h3, ih]
    · have h1 : (p.1 == k) = false := by simp [hp]
      simp only [List.filter_cons, h1, Bool.not_false, if_pos]
      rw [List.find?_cons, List.find?_cons]
      by_cases hq : (p.1 == k2) = true
      · simp [hq]
      · have hq2 : (p.1 == k2) = false := by simpa using hq
        simp [hq2, ih]

theorem jget_jset_other (d : JDict) (k k2 : Str) (v : JVal) (h : ¬ k2 = k) :
    jget (jset d k v) k2 = jget d k2 := by
  simp only [jget, jset]
  rw [List.find?_cons]
  have h1 : ((k, v).1 == k2) = false := by
    simp
    intro hh
    exact h hh.symm
  rw [h1, find?_filter_ne d k k2 h]

theorem jget_if_jset (c : Prop) [Decidable c] (d : JDict) (k k2 : Str)
    (v : JVal) (h : ¬ k2 = k) :
    jget (if c then d else jset d k v) k2 = jget d k2 := by
  by_cases hc : c
  · rw [if_pos hc]
  · rw [if_neg hc, jget_jset_other d k k2 v h]

theorem except_bind_ok {α β : Type} (x : Except Unit α) (f : α → Except Unit β)
    (b : β) (h : (x >>= f) = Except.ok b) :
    ∃ a, x = Except.ok a ∧ f a = Except.ok b := by
  cases x with
  | error e => simp [Bind.bind, Except.bind] at h
  | ok a => exact ⟨a, rfl, by simpa [Bind.bind, Except.bind] using h⟩

theorem jget_coerceList_other (d : JDict) (k k2 : Str) (h : ¬ k2 = k) :
    jget (coerceList d k) k2 = jget d k2 := by
  unfold coerceList
  exact jget_if_jset _ d k k2 _ h

/-- C8 (amended): for every decoded model dict and every non-empty
requested url, the normalized dict's source_url entry is exactly the
requested url, whatever the model returned.  (For an empty requested
url the code keeps the model's value instead: see the
counterexample.) -/
theorem normalizeTail_source_url (data1 : JDict) (url : Str) (d : JDict)
    (hu : url ≠ [])
    (h : normalizeTail data1 url = Except.ok d) :
    jget d (str "source_url") = some (JVal.jstr url) := by
  simp only [normalizeTail] at h
  obtain ⟨pt, hpt, h⟩ := except_bind_ok _ _ _ h
  obtain ⟨ct, hct, h⟩ := except_bind_ok _ _ _ h
  obtain ⟨tt, htt, h⟩ := except_bind_ok _ _ _ h
  injection h with h2
  subst h2
  rw [jget_coerceList_other _ (str "steps") (str "source_url") (by decide)]
  rw [jget_coerceList_other _ (str "ingredients") (str "source_url") (by decide)]
  rw [jget_jset_same]
  rw [if_pos hu]

theorem C8_normalized_source_url (data : JDict) (url : Str) (d : JDict)
    (hu : url ≠ [])
    (h : normalize_ai_recipe_dict data url = Except.ok d) :
    jget d (str "source_url") = some (JVal.jstr url) :=
  normalizeTail_source_url (defaultFields data) url d hu h

/-- The source_url entry of the normalized dict, when normalization
returns. -/
def normalizedSourceUrl (data : JDict) (url : Str) : Option JVal :=
  match normalize_ai_recipe_dict data url with
  | Except.ok d => jget d (str "source_url")
  | Except.error _ => none

/-- C8 counterexample: with the requested url empty and the model
returning source_url "x", the normalized dict keeps the model's "x"
(the code computes url or str(model value), so an empty requested url
is not forced). -/
theorem C8_counterexample :
    normalizedSourceUrl [(str "source_url", JVal.jstr (str "x"))] [] =
      some (JVal.jstr (str "x")) ∧ str "x" ≠ ([] : Str) :=
  ⟨rfl, by decide⟩

/-- C8 witness: the source_url theorem applied to the empty model dict
and the concrete non-empty url "u", whose normalized dict is written
out explicitly. -/
theorem C8_witness :
    jget [(str "source_url", JVal.jstr (str "u")),
      (str "servings", JVal.jstr (str "")),
      (str "total_time", JVal.jnum 0),
      (str "cook_time", JVal.jnum 0),
      (str "prep_time", JVal.jnum 0),
      (str "steps", JVal.jarr []),
      (str "ingredients", JVal.jarr []),
      (str "author", JVal.jstr (str "")),
      (str "title", JVal.jstr (str ""))] (str "source_url") =
      some (JVal.jstr (str "u")) :=
  C8_normalized_source_url [] (str "u")
    [(str "source_url", JVal.jstr (str "u")),
      (str "servings", JVal.jstr (str "")),
      (str "total_time", JVal.jnum 0),
      (str "cook_time", JVal.jnum 0),
      (str "prep_time", JVal.jnum 0),
      (str "steps", JVal.jarr []),
      (str "ingredients", JVal.jarr []),
      (str "author", JVal.jstr (str "")),
      (str "title", JVal.jstr (str ""))]
    (by decide) (by rfl)

/-! ### Field refiner (extraction.ai_refine_missing_fields) -/

/-- Pass 1: when the steps list is empty, fill it from the steps-only
response; acceptance needs a non-empty decoded list, whose elements are
stringified, stripped and blank-filtered. -/
def refineSteps (url : Str) (d1 : JDict) (updated : RecipeResponse) :
    RecipeResponse :=
  if updated.steps.isEmpty then
    match jget d1 (str "steps") with
    | some (JVal.jarr steps) =>
      if !steps.isEmpty then
        ⟨updated.title, updated.author, url, updated.prep_time,
         updated.cook_time, updated.total_time, updated.servings,
         updated.ingredients,
         steps.filterMap (fun s =>
           if pyStrip (pyStrJ s) = [] then none else some (pyStrip (pyStrJ s))),
         updated.image_url⟩
      else updated
    | _ => updated
  else updated

/-- Pass 2: the ingredients analogue of pass 1. -/
def refineIngredients (url : Str) (d2 : JDict) (updated : RecipeResponse) :
    RecipeResponse :=
  if updated.ingredients.isEmpty then
    match jget d2 (str "ingredients") with
    | some (JVal.jarr ings) =>
      if !ings.isEmpty then
        ⟨updated.title, updated.author, url, updated.prep_time,
         updated.cook_time, updated.total_time, updated.servings,
         ings.filterMap (fun s =>
           if pyStrip (pyStrJ s) = [] then none else some (pyStrip (pyStrJ s))),
         updated.steps,
         updated.image_url⟩
      else updated
    | _ => updated
  else updated

/-- Pass 3: when any time is zero, parse all three from the timings
response (str() of the decoded value through the duration parser) and
fill only the zero fields (x or t2m keeps a non-zero x). -/
def refineTimes (url : Str) (d3 : JDict) (updated : RecipeResponse) :
    Except Unit RecipeResponse :=
  if updated.prep_time = 0 ∨ updated.cook_time = 0 ∨ updated.total_time = 0
  then do
    let pt ← time_to_minutes (pyStrJ ((jget d3 (str "prep_time")).getD (JVal.jstr [])))
    let ct ← time_to_minutes (pyStrJ ((jget d3 (str "cook_time")).getD (JVal.jstr [])))
    let tt ← time_to_minutes (pyStrJ ((jget d3 (str "total_time")).getD (JVal.jstr [])))
    Except.ok ⟨updated.title, updated.author, url,
      (if updated.prep_time = 0 then pt else updated.prep_time),
      (if updated.cook_time = 0 then ct else updated.cook_time),
      (if updated.total_time = 0 then tt else updated.total_time),
      updated.servings, updated.ingredients, updated.steps,
      updated.image_url⟩
  else Except.ok updated

/-- Python x or "" for strings; on the model this is the identity. -/
def orEmpty (t : Str) : Str := if t.isEmpty then [] else t

/-- One field of pass 4: when the field is needed and the response
holds a non-None value for it, str() of that value, else the existing
value. -/
def pickMeta (need : Bool) (d4 : JDict) (k : Str) (old : Str) : Str :=
  if need then
    match jget d4 k with
    | some JVal.jnull => old
    | some v => pyStrJ v
    | none => old
  else old

/-- Pass 4: per-field refill of blank title, author and servings. -/
def refineMeta (url : Str) (d4 : JDict) (updated : RecipeResponse) :
    RecipeResponse :=
  if (pyStrip updated.title).isEmpty || (pyStrip updated.author).isEmpty ||
      (pyStrip updated.servings).isEmpty then
    ⟨orEmpty (pickMeta (pyStrip updated.title).isEmpty d4 (str "title")
        updated.title),
     orEmpty (pickMeta (pyStrip updated.author).isEmpty d4 (str "author")
        updated.author),
     url, updated.prep_time, updated.cook_time, updated.total_time,
     orEmpty (pickMeta (pyStrip updated.servings).isEmpty d4 (str "servings")
        updated.servings),
     updated.ingredients, updated.steps, updated.image_url⟩
  else updated

/-- extraction.ai_refine_missing_fields over the four decoded model
responses, one per conditional completion call (a JSON-parse failure is
the empty dict); the page text only feeds the prompts.  Except
propagates the duration parser's unguarded exceptions in pass 3. -/
def ai_refine_missing_fields (text url : Str) (base : RecipeResponse)
    (d1 d2 d3 d4 : JDict) : Except Unit RecipeResponse := do
  let u1 := refineSteps url d1 base
  let u2 := refineIngredients url d2 u1
  let u3 ← refineTimes url d3 u2
  Except.ok (refineMeta url d4 u3)

theorem refineSteps_frame (url : Str) (d1 : JDict) (r : RecipeResponse) :
    ((refineSteps url d1 r).title = r.title ∧
     (refineSteps url d1 r).author = r.author ∧
     (refineSteps url d1 r).prep_time = r.prep_time ∧
     (refineSteps url d1 r).cook_time = r.cook_time ∧
     (refineSteps url d1 r).total_time = r.total_time ∧
     (refineSteps url d1 r).servings = r.servings ∧
     (refineSteps url d1 r).ingredients = r.ingredients) ∧
    (r.steps ≠ [] → refineSteps url d1 r = r) := by
  constructor
  · unfold refineSteps
    repeat' split
    all_goals exact ⟨rfl, rfl, rfl, rfl, rfl, rfl, rfl⟩
  · intro h
    unfold refineSteps
    rw [if_neg (by simpa [List.isEmpty_iff] using h)]

theorem refineIngredients_frame (url : Str) (d2 : JDict) (r : RecipeResponse) :
    ((refineIngredients url d2 r).title = r.title ∧
     (refineIngredients url d2 r).author = r.author ∧
     (refineIngredients url d2 r).prep_time = r.prep_time ∧
     (refineIngredients url d2 r).cook_time = r.cook_time ∧
     (refineIngredients url d2 r).total_time = r.total_time ∧
     (refineIngredients url d2 r).servings = r.servings ∧
     (refineIngredients url d2 r).steps = r.steps) ∧
    (r.ingredients ≠ [] → refineIngredients url d2 r = r) := by
  constructor
  · unfold refineIngredients
    repeat' split
    all_goals exact ⟨rfl, rfl, rfl, rfl, rfl, rfl, rfl⟩
  · intro h
    unfold refineIngredients
    rw [if_neg (by simpa [List.isEmpty_iff] using h)]

theorem refineTimes_frame (url : Str) (d3 : JDict) (r out : RecipeResponse)
    (h : refineTimes url d3 r = Except.ok out) :
    out.title = r.title ∧ out.author = r.author ∧
    out.servings = r.servings ∧ out.ingredients = r.ingredients ∧
    out.steps = r.steps ∧
    (r.prep_time ≠ 0 → out.prep_time = r.prep_time) ∧
    (r.cook_time ≠ 0 → out.cook_time = r.cook_time) ∧
    (r.total_time ≠ 0 → out.total_time = r.total_time) := by
  unfold refineTimes at h
  by_cases hc : r.prep_time = 0 ∨ r.cook_time = 0 ∨ r.total_time = 0
  · rw [if_pos hc] at h
    obtain ⟨pt, hpt, h⟩ := except_bind_ok _ _ _ h
    obtain ⟨ct, hct, h⟩ := except_bind_ok _ _ _ h
    obtain ⟨tt, htt, h⟩ := except_bind_ok _ _ _ h
    injection h with h2
    subst h2
    refine ⟨rfl, rfl, rfl, rfl, rfl, ?_, ?_, ?_⟩
    · intro hp
      show (if r.prep_time = 0 then pt else r.prep_time) = r.prep_time
      rw [if_neg hp]
    · intro hp
      show (if r.cook_time = 0 then ct else r.cook_time) = r.cook_time
      rw [if_neg hp]
    · intro hp
      show (if r.total_time = 0 then tt else r.total_time) = r.total_time
      rw [if_neg hp]
  · rw [if_neg hc] at h
    injection h with h2
    subst h2
    exact ⟨rfl, rfl, rfl, rfl, rfl, fun _ => rfl, fun _ => rfl, fun _ => rfl⟩

theorem orEmpty_eq (t : Str) : orEmpty t = t := by
  unfold orEmpty
  by_cases h : t.isEmpty = true
  · rw [if_pos h]
    simp only [List.isEmpty_iff] at h
    exact h.symm
  · rw [if_neg h]

theorem refineMeta_frame (url : Str) (d4 : JDict) (r : RecipeResponse) :
    (refineMeta url d4 r).prep_time = r.prep_time ∧
    (refineMeta url d4 r).cook_time = r.cook_time ∧
    (refineMeta url d4 r).total_time = r.total_time ∧
    (refineMeta url d4 r).ingredients = r.ingredients ∧
    (refineMeta url d4 r).steps = r.steps ∧
    (pyStrip r.title ≠ [] → (refineMeta url d4 r).title = r.title) ∧
    (pyStrip r.author ≠ [] → (refineMeta url d4 r).author = r.author) ∧
    (pyStrip r.servings ≠ [] → (refineMeta url d4 r).servings = r.servings) := by
  unfold refineMeta
  by_cases hc : ((pyStrip r.title).isEmpty || (pyStrip r.author).isEmpty ||
      (pyStrip r.servings).isEmpty) = true
  · rw [if_pos hc]
    refine ⟨rfl, rfl, rfl, rfl, rfl, ?_, ?_, ?_⟩
    · intro ht
      have hneed : (pyStrip r.title).isEmpty = false := by
        simpa [List.isEmpty_iff] using ht
      show orEmpty (pickMeta (pyStrip r.title).isEmpty d4 (str "title")
        r.title) = r.title
      rw [hneed]
      rw [orEmpty_eq]
      rfl
    · intro ht
      have hneed : (pyStrip r.author).isEmpty = false := by
        simpa [List.isEmpty_iff] using ht
      show orEmpty (pickMeta (pyStrip r.author).isEmpty d4 (str "author")
        r.author) = r.author
      rw [hneed]
      rw [orEmpty_eq]
      rfl
    · intro ht
      have hneed : (pyStrip r.servings).isEmpty = false := by
        simpa [List.isEmpty_iff] using ht
      show orEmpty (pickMeta (pyStrip r.servings).isEmpty d4 (str "servings")
        r.servings) = r.servings
      rw [hneed]
      rw [orEmpty_eq]
      rfl
  · rw [if_neg hc]
    exact ⟨rfl, rfl, rfl, rfl, rfl, fun _ => rfl, fun _ => rfl, fun _ => rfl⟩

/-- C7: the field refiner never overwrites a populated field: whenever
it returns, the output keeps the base's steps if those were non-empty,
likewise the ingredients; each time field keeps a non-zero base value;
and each of title, author and servings keeps a base value that is
non-blank after stripping — for every base record, url, page text and
any four decoded model responses. -/
theorem C7_refine_never_overwrites (text url : Str) (base : RecipeResponse)
    (d1 d2 d3 d4 : JDict) (out : RecipeResponse)
    (h : ai_refine_missing_fields text url base d1 d2 d3 d4 = Except.ok out) :
    (base.steps ≠ [] → out.steps = base.steps) ∧
    (base.ingredients ≠ [] → out.ingredients = base.ingredients) ∧
    (base.prep_time ≠ 0 → out.prep_time = base.prep_time) ∧
    (base.cook_time ≠ 0 → out.cook_time = base.cook_time) ∧
    (base.total_time ≠ 0 → out.total_time = base.total_time) ∧
    (pyStrip base.title ≠ [] → out.title = base.title) ∧
    (pyStrip base.author ≠ [] → out.author = base.author) ∧
    (pyStrip base.servings ≠ [] → out.servings = base.servings) := by
  unfold ai_refine_missing_fields at h
  obtain ⟨u3, h3, h4⟩ := except_bind_ok _ _ _ h
  injection h4 with h4
  subst h4
  have f1 := refineSteps_frame url d1 base
  have f2 := refineIngredients_frame url d2 (refineSteps url d1 base)
  have f3 := refineTimes_frame url d3
    (refineIngredients url d2 (refineSteps url d1 base)) u3 h3
  have f4 := refineMeta_frame url d4 u3
  obtain ⟨⟨e1t, e1a, e1p, e1c, e1tt, e1s, e1i⟩, e1steps⟩ := f1
  obtain ⟨⟨e2t, e2a, e2p, e2c, e2tt, e2s, e2st⟩, e2ings⟩ := f2
  obtain ⟨e3t, e3a, e3s, e3i, e3st, e3p, e3c, e3tt⟩ := f3
  obtain ⟨e4p, e4c, e4tt, e4i, e4st, e4t, e4a, e4s⟩ := f4
  refine ⟨?_, ?_, ?_, ?_, ?_, ?_, ?_, ?_⟩
  · intro hs
    rw [e4st, e3st, e2st, e1steps hs]
  · intro hi
    have hu1 : (refineSteps url d1 base).ingredients ≠ [] := by rw [e1i]; exact hi
    rw [e4i, e3i, e2ings hu1, e1i]
  · intro hp
    have hu2 : (refineIngredients url d2 (refineSteps url d1 base)).prep_time =
        base.prep_time := by rw [e2p, e1p]
    rw [e4p, e3p (by rw [hu2]; exact hp), hu2]
  · intro hp
    have hu2 : (refineIngredients url d2 (refineSteps url d1 base)).cook_time =
        base.cook_time := by rw [e2c, e1c]
    rw [e4c, e3c (by rw [hu2]; exact hp), hu2]
  · intro hp
    have hu2 : (refineIngredients url d2 (refineSteps url d1 base)).total_time =
        base.total_time := by rw [e2tt, e1tt]
    rw [e4tt, e3tt (by rw [hu2]; exact hp), hu2]
  · intro ht
    have hu3 : u3.title = base.title := by rw [e3t, e2t, e1t]
    rw [e4t (by rw [hu3]; exact ht), hu3]
  · intro ht
    have hu3 : u3.author = base.author := by rw [e3a, e2a, e1a]
    rw [e4a (by rw [hu3]; exact ht), hu3]
  · intro ht
    have hu3 : u3.servings = base.servings := by rw [e3s, e2s, e1s]
    rw [e4s (by rw [hu3]; exact ht), hu3]

/-- C7 witness: the preservation theorem at a fully populated concrete
base record (so every pass's trigger is off) and empty response dicts;
the run returns the base unchanged. -/
theorem C7_witness :
    (⟨str "T", str "A", str "u", 5, 10, 15, str "4", [str "i"], [str "s"],
      none⟩ : RecipeResponse).steps = [str "s"] :=
  (C7_refine_never_overwrites (str "page") (str "u")
    ⟨str "T", str "A", str "u", 5, 10, 15, str "4", [str "i"], [str "s"], none⟩
    [] [] [] []
    ⟨str "T", str "A", str "u", 5, 10, 15, str "4", [str "i"], [str "s"], none⟩
    (by rfl)).1 (by decide)

end Recipe
